import Mathlib

/-!
Shallow embedding of the `tecs` ECS micro-engine (src/main.rs).

Modelling choices:
* `Uuid` identifiers become `Nat`; `Uuid::new_v4()` is modelled as an
  externally supplied fresh value (the spec treats identifier generation as a
  pluggable source of effectively-unique values, uniqueness assumed certain).
* `Vec<Uuid>` becomes `List Nat` with `push` as append at the end, so list
  order is insertion order.
* `HashMap<Uuid, C>` becomes an association list `List (Nat × C)`; `insert`
  replaces the value when the key is present (HashMap semantics) and appends
  otherwise; `get` finds the first entry with the key.
* The `query!` macro expands, per call site, to
  `entities.iter().filter_map(|e| { let c = components.get(e)?;
     Some((e, c.f1.clone()?, …, c.fn.clone()?)) })`.
  We embed this as `queryFields`, with the requested fields given as a list of
  accessors `C → Option V` and the heterogeneous tuple flattened to a list of
  values in request order; `extractAll` is the chain of `?` extractions.
  Rust's `.clone()` is the identity on values in this pure embedding.
-/

namespace Tecs

/-- Association-list lookup, mirroring `HashMap::get`. -/
def mapGet {C : Type} (m : List (Nat × C)) (k : Nat) : Option C :=
  match m with
  | [] => none
  | (k', v) :: rest => if k' = k then some v else mapGet rest k

/-- Association-list insert, mirroring `HashMap::insert`: replaces the value
when the key is already present, otherwise appends a new entry. -/
def mapInsert {C : Type} (m : List (Nat × C)) (k : Nat) (v : C) : List (Nat × C) :=
  match m with
  | [] => [(k, v)]
  | (k', v') :: rest => if k' = k then (k, v) :: rest else (k', v') :: mapInsert rest k v

/-- `struct Entity<C> { id: Uuid, component: C }`. -/
structure Entity (C : Type) where
  id : Nat
  component : C

/-- `Entity::new`: pairs a freshly generated identifier with a bundle; the
fresh identifier is passed explicitly in this embedding. -/
def Entity.new {C : Type} (fresh : Nat) (component : C) : Entity C :=
  { id := fresh, component := component }

/-- `struct World<C> { entities: Vec<Uuid>, components: HashMap<Uuid, C> }`. -/
structure World (C : Type) where
  entities : List Nat
  components : List (Nat × C)

/-- `World::new()`: empty sequence, empty mapping. -/
def World.new {C : Type} : World C :=
  { entities := [], components := [] }

/-- `World::spawn`: pushes the entity's id onto the ordered sequence and
inserts (id → component) into the mapping. -/
def World.spawn {C : Type} (w : World C) (e : Entity C) : World C :=
  { entities := w.entities ++ [e.id]
  , components := mapInsert w.components e.id e.component }

/-- A sequence of `World::spawn` calls, in order: the shape of every world the
program builds (cf. `main`, which is three consecutive spawns). -/
def spawnAll {C : Type} (w : World C) (es : List (Entity C)) : World C :=
  es.foldl World.spawn w

/-- The chain of `comps.$comp.clone()?` extractions inside the `query!`
closure: succeeds with the list of values (in request order) iff every
requested field is present. -/
def extractAll {C V : Type} (fs : List (C → Option V)) (c : C) : Option (List V) :=
  match fs with
  | [] => some []
  | f :: rest => (f c).bind fun v => (extractAll rest c).map fun vs => v :: vs

/-- The body of the `filter_map` closure in `query!`:
`let comps = world.components.get(entity)?; Some((entity, …values…))`. -/
def entityTuple {C V : Type} (comps : List (Nat × C)) (fs : List (C → Option V))
    (id : Nat) : Option (Nat × List V) :=
  (mapGet comps id).bind fun c => (extractAll fs c).map fun vs => (id, vs)

/-- The `query!` macro: iterate the world's entities in insertion order and
filter-map each through the per-entity extraction. -/
def queryFields {C V : Type} (w : World C) (fs : List (C → Option V)) :
    List (Nat × List V) :=
  w.entities.filterMap (entityTuple w.components fs)

/-- A query call in Rust borrows the `World` immutably; we model the call as
state passing that returns the result together with the (unchanged) world. -/
def queryRun {C V : Type} (w : World C) (fs : List (C → Option V)) :
    List (Nat × List V) × World C :=
  (queryFields w fs, w)

/-- `struct Position(i32, i32)`. -/
structure Position where
  x : Int
  y : Int
deriving DecidableEq, Repr

/-- `struct Name(String)`. -/
structure Name where
  val : String
deriving DecidableEq, Repr

/-- `struct Component { name: Option<Name>, position: Option<Position> }`. -/
structure Component where
  name : Option Name
  position : Option Position
deriving DecidableEq, Repr

/-- `Component::new()`: every field absent. -/
def Component.new : Component :=
  { name := none, position := none }

/-- `with_position`: returns the bundle with `position` set, other fields
carried over (`..self`). -/
def Component.with_position (c : Component) (position : Position) : Component :=
  { c with position := some position }

/-- `with_name`: returns the bundle with `name` set, other fields carried
over (`..self`). -/
def Component.with_name (c : Component) (n : Name) : Component :=
  { c with name := some n }

/-- The value universe of the demonstration bundle, used to give the
heterogeneous query tuples a single list type. -/
inductive Value where
  | pos : Position → Value
  | name : Name → Value
deriving DecidableEq, Repr

/-- Accessor for the `position` field, as requested by `query!(world, position)`. -/
def positionField (c : Component) : Option Value :=
  c.position.map Value.pos

/-- Accessor for the `name` field, as requested by `query!(world, name)`. -/
def nameField (c : Component) : Option Value :=
  c.name.map Value.name

/-- The world built by `main`: entities `point`, `label`, `player`
spawned in that order (ids 0, 1, 2 standing for the three fresh UUIDs). -/
def demoWorld : World Component :=
  ((World.new.spawn (Entity.new 0 (Component.new.with_position ⟨3, 4⟩))).spawn
      (Entity.new 1 (Component.new.with_name ⟨"Label"⟩))).spawn
    (Entity.new 2 ((Component.new.with_position ⟨0, 0⟩).with_name ⟨"Ian"⟩))

example : queryFields demoWorld [positionField] =
    [(0, [Value.pos ⟨3, 4⟩]), (2, [Value.pos ⟨0, 0⟩])] := by decide

example : queryFields demoWorld [nameField] =
    [(1, [Value.name ⟨"Label"⟩]), (2, [Value.name ⟨"Ian"⟩])] := by decide

example : queryFields demoWorld [positionField, nameField] =
    [(2, [Value.pos ⟨0, 0⟩, Value.name ⟨"Ian"⟩])] := by decide

/-! ### Lemmas about the association-list map -/

lemma mapGet_mapInsert_self {C : Type} (m : List (Nat × C)) (k : Nat) (v : C) :
    mapGet (mapInsert m k v) k = some v := by
  induction m with
  | nil => simp [mapInsert, mapGet]
  | cons hd tl ih =>
    obtain ⟨k', v'⟩ := hd
    by_cases h : k' = k
    · simp [mapInsert, mapGet, h]
    · simp [mapInsert, mapGet, h, ih]

lemma mapGet_mapInsert_ne {C : Type} (m : List (Nat × C)) (k k' : Nat) (v : C)
    (h : k' ≠ k) : mapGet (mapInsert m k v) k' = mapGet m k' := by
  induction m with
  | nil =>
    simp only [mapInsert, mapGet]
    rw [if_neg (Ne.symm h)]
  | cons hd tl ih =>
    obtain ⟨k₀, v₀⟩ := hd
    by_cases h₀ : k₀ = k
    · subst h₀
      simp only [mapInsert, if_pos rfl, mapGet]
      rw [if_neg (Ne.symm h), if_neg (Ne.symm h)]
    · simp only [mapInsert, if_neg h₀, mapGet]
      by_cases h₁ : k₀ = k'
      · rw [if_pos h₁, if_pos h₁]
      · rw [if_neg h₁, if_neg h₁, ih]

lemma length_mapInsert_of_not_mem {C : Type} (m : List (Nat × C)) (k : Nat) (v : C)
    (h : mapGet m k = none) : (mapInsert m k v).length = m.length + 1 := by
  induction m with
  | nil => simp [mapInsert]
  | cons hd tl ih =>
    obtain ⟨k₀, v₀⟩ := hd
    by_cases h₀ : k₀ = k
    · simp [mapGet, h₀] at h
    · simp only [mapGet, h₀, if_neg h₀] at h
      simp [mapInsert, h₀, ih h]

lemma mapGet_isSome_iff_mem_keys {C : Type} (m : List (Nat × C)) (k : Nat) :
    (mapGet m k).isSome ↔ k ∈ m.map Prod.fst := by
  induction m with
  | nil => simp [mapGet]
  | cons hd tl ih =>
    obtain ⟨k₀, v₀⟩ := hd
    by_cases h₀ : k₀ = k
    · simp [mapGet, h₀]
    · simp [mapGet, h₀, ih, Ne.symm h₀]

lemma keys_mapInsert_of_mem {C : Type} (m : List (Nat × C)) (k : Nat) (v : C)
    (h : k ∈ m.map Prod.fst) :
    (mapInsert m k v).map Prod.fst = m.map Prod.fst := by
  induction m with
  | nil => simp at h
  | cons hd tl ih =>
    obtain ⟨k₀, v₀⟩ := hd
    by_cases h₀ : k₀ = k
    · simp [mapInsert, h₀]
    · simp only [List.map_cons, List.mem_cons] at h
      rcases h with h | h

      · exact absurd h.symm h₀
      · simp [mapInsert, h₀, ih h]

lemma keys_mapInsert_of_not_mem {C : Type} (m : List (Nat × C)) (k : Nat) (v : C)
    (h : k ∉ m.map Prod.fst) :
    (mapInsert m k v).map Prod.fst = m.map Prod.fst ++ [k] := by
  induction m with
  | nil => simp [mapInsert]
  | cons hd tl ih =>
    obtain ⟨k₀, v₀⟩ := hd
    simp only [List.map_cons, List.mem_cons] at h
    push_neg at h
    simp only [mapInsert, if_neg (Ne.symm h.1)]
    simp [ih h.2]

lemma mem_keys_mapInsert {C : Type} (m : List (Nat × C)) (k k' : Nat) (v : C) :
    k' ∈ (mapInsert m k v).map Prod.fst ↔ k' ∈ m.map Prod.fst ∨ k' = k := by
  by_cases h : k ∈ m.map Prod.fst
  · rw [keys_mapInsert_of_mem m k v h]
    constructor
    · exact Or.inl
    · rintro (hh | rfl)
      · exact hh
      · exact h
  · rw [keys_mapInsert_of_not_mem m k v h]
    simp

/-! ### Lemmas about the query expansion -/

lemma extractAll_isSome_iff {C V : Type} (fs : List (C → Option V)) (c : C) :
    (extractAll fs c).isSome ↔ ∀ f ∈ fs, (f c).isSome := by
  induction fs with
  | nil => simp [extractAll]
  | cons f rest ih =>
    constructor
    · intro h g hg
      obtain ⟨vs, hvs⟩ := Option.isSome_iff_exists.mp h
      simp only [extractAll] at hvs
      obtain ⟨v, hv, hrest⟩ := Option.bind_eq_some.mp hvs
      obtain ⟨vs', hvs', rfl⟩ := Option.map_eq_some'.mp hrest
      rcases List.mem_cons.mp hg with rfl | hg'
      · rw [hv]; rfl
      · exact ih.mp (Option.isSome_iff_exists.mpr ⟨vs', hvs'⟩) g hg'
    · intro hall
      have h1 := hall f (List.mem_cons_self f rest)
      have h2 := ih.mpr fun g hg => hall g (List.mem_cons_of_mem f hg)
      obtain ⟨v, hv⟩ := Option.isSome_iff_exists.mp h1
      obtain ⟨vs, hvs⟩ := Option.isSome_iff_exists.mp h2
      apply Option.isSome_iff_exists.mpr
      refine ⟨v :: vs, ?_⟩
      simp only [extractAll, hv, hvs]
      rfl

lemma entityTuple_eq_some_iff {C V : Type} (comps : List (Nat × C))
    (fs : List (C → Option V)) (id id' : Nat) (vs : List V) :
    entityTuple comps fs id = some (id', vs) ↔
      id' = id ∧ ∃ c, mapGet comps id = some c ∧ extractAll fs c = some vs := by
  simp only [entityTuple, Option.bind_eq_some, Option.map_eq_some']
  constructor
  · rintro ⟨c, hc, vs', hvs', heq⟩
    cases heq
    exact ⟨rfl, c, hc, hvs'⟩
  · rintro ⟨rfl, c, hc, hvs⟩
    exact ⟨c, hc, vs, hvs, rfl⟩

lemma mem_queryFields_iff {C V : Type} (w : World C) (fs : List (C → Option V))
    (id : Nat) (vs : List V) :
    (id, vs) ∈ queryFields w fs ↔
      id ∈ w.entities ∧ ∃ c, mapGet w.components id = some c ∧
        extractAll fs c = some vs := by
  simp only [queryFields, List.mem_filterMap]
  constructor
  · rintro ⟨a, ha, hta⟩
    rw [entityTuple_eq_some_iff] at hta
    obtain ⟨rfl, hrest⟩ := hta
    exact ⟨ha, hrest⟩
  · rintro ⟨hmem, hrest⟩
    exact ⟨id, hmem, (entityTuple_eq_some_iff _ _ _ _ _).mpr ⟨rfl, hrest⟩⟩

lemma queryFields_map_fst {C V : Type} (w : World C) (fs : List (C → Option V)) :
    (queryFields w fs).map Prod.fst =
      w.entities.filter
        (fun id => ((mapGet w.components id).bind (extractAll fs)).isSome) := by
  show (w.entities.filterMap (entityTuple w.components fs)).map Prod.fst = _
  induction w.entities with
  | nil => rfl
  | cons hd tl ih =>
    simp only [List.filterMap_cons, List.filter_cons]
    cases hc : mapGet w.components hd with
    | none => simpa [entityTuple, hc] using ih
    | some c =>
      cases he : extractAll fs c with
      | none => simpa [entityTuple, hc, he] using ih
      | some vs => simpa [entityTuple, hc, he] using ih

lemma spawnAll_entities {C : Type} (es : List (Entity C)) (w : World C) :
    (spawnAll w es).entities = w.entities ++ es.map Entity.id := by
  induction es generalizing w with
  | nil => simp [spawnAll]
  | cons e rest ih =>
    show (spawnAll (w.spawn e) rest).entities = _
    rw [ih (w.spawn e)]
    show (w.entities ++ [e.id]) ++ rest.map Entity.id = _
    simp

lemma spawnAll_mapGet_of_ne {C : Type} (es : List (Entity C)) (w : World C)
    (id : Nat) (h : ∀ e ∈ es, e.id ≠ id) :
    mapGet (spawnAll w es).components id = mapGet w.components id := by
  induction es generalizing w with
  | nil => rfl
  | cons e rest ih =>
    show mapGet (spawnAll (w.spawn e) rest).components id = _
    rw [ih (w.spawn e) fun e' he' => h e' (List.mem_cons_of_mem e he')]
    show mapGet (mapInsert w.components e.id e.component) id = _
    exact mapGet_mapInsert_ne _ _ _ _
      (fun heq => h e (List.mem_cons_self e rest) (heq ▸ rfl))

lemma filter_filterMap_count {C V : Type} (ents : List Nat)
    (comps : List (Nat × C)) (fs : List (C → Option V)) (id : Nat) (c : C)
    (vs : List V) (hc : mapGet comps id = some c)
    (hvs : extractAll fs c = some vs) :
    ((ents.filterMap (entityTuple comps fs)).filter fun t => t.1 == id)
      = List.replicate (ents.count id) (id, vs) := by
  induction ents with
  | nil => rfl
  | cons hd tl ih =>
    rw [List.filterMap_cons, List.count_cons]
    by_cases h : hd = id
    · subst h
      have htup : entityTuple comps fs hd = some (hd, vs) := by
        simp [entityTuple, hc, hvs]
      rw [htup]
      simp [List.filter_cons, ih, List.replicate_succ]
    · have hne : (hd == id) = false := beq_false_of_ne h
      cases htup : entityTuple comps fs hd with
      | none => simp [ih, hne]
      | some t =>
        obtain ⟨tid, tvs⟩ := t
        obtain ⟨rfl, -⟩ := (entityTuple_eq_some_iff _ _ _ _ _).mp htup
        simp [List.filter_cons, hne, ih]

/-- The invariant of §3 of the spec: every identifier in the ordered sequence
has a mapping entry, the mapping has no identifier absent from the sequence,
and keys are unique (hence "exactly one corresponding entry"). -/
def Inv {C : Type} (w : World C) : Prop :=
  (∀ id, id ∈ w.entities ↔ (mapGet w.components id).isSome) ∧
    (w.components.map Prod.fst).Nodup

/-! ### Claim theorems -/

/-- C1: for every world and non-empty requested field list, an identifier
yields a tuple iff it is a live entity whose bundle has every requested field
present; an entity missing any requested field yields no tuple at all. -/
theorem query_and_semantics {C V : Type} (w : World C) (fs : List (C → Option V))
    (_hfs : fs ≠ []) (id : Nat) :
    (∃ vs, (id, vs) ∈ queryFields w fs) ↔
      id ∈ w.entities ∧ ∃ c, mapGet w.components id = some c ∧
        ∀ f ∈ fs, (f c).isSome := by
  constructor
  · rintro ⟨vs, hvs⟩
    rw [mem_queryFields_iff] at hvs
    obtain ⟨hmem, c, hc, he⟩ := hvs
    refine ⟨hmem, c, hc, (extractAll_isSome_iff fs c).mp ?_⟩
    rw [he]
    rfl
  · rintro ⟨hmem, c, hc, hall⟩
    obtain ⟨vs, hvs⟩ :=
      Option.isSome_iff_exists.mp ((extractAll_isSome_iff fs c).mpr hall)
    exact ⟨vs, (mem_queryFields_iff w fs id vs).mpr ⟨hmem, c, hc, hvs⟩⟩

/-- Witness for C1 at the demo world, requesting the position field of
entity 0 (which has position (3,4)). -/
theorem query_and_semantics_witness :
    ([positionField] ≠ ([] : List (Component → Option Value))) ∧
      ((∃ vs, (0, vs) ∈ queryFields demoWorld [positionField]) ↔
        0 ∈ demoWorld.entities ∧ ∃ c, mapGet demoWorld.components 0 = some c ∧
          ∀ f ∈ [positionField], (f c).isSome) :=
  ⟨by simp, query_and_semantics demoWorld [positionField] (by simp) 0⟩

/-- C2: every entity possessing all requested fields appears exactly once in
the query output, with the values set in its bundle at spawn time: the entity
may have been spawned into an arbitrary prior world and followed by an
arbitrary list of later spawns (with identifiers distinct from its own, the
design's uniqueness assumption). The values come out of `extractAll` of the
bundle given at spawn; the embedding returns them by value, so the world's
stored copy is untouched by anything done to a yielded tuple. -/
theorem query_exactly_once_spawn {C V : Type} (w : World C)
    (fs : List (C → Option V)) (id : Nat) (c : C) (vs : List V)
    (es : List (Entity C)) (hfresh : id ∉ w.entities)
    (hlater : ∀ e ∈ es, e.id ≠ id) (hvs : extractAll fs c = some vs) :
    ((queryFields (spawnAll (w.spawn (Entity.new id c)) es) fs).filter
        fun t => t.1 == id)
      = [(id, vs)] := by
  have hcomp :
      mapGet (spawnAll (w.spawn (Entity.new id c)) es).components id
        = some c := by
    rw [spawnAll_mapGet_of_ne es _ id hlater]
    exact mapGet_mapInsert_self w.components id c
  have hcount :
      (spawnAll (w.spawn (Entity.new id c)) es).entities.count id = 1 := by
    rw [spawnAll_entities]
    show ((w.entities ++ [id]) ++ es.map Entity.id).count id = 1
    rw [List.count_append, List.count_append]
    have h1 : w.entities.count id = 0 := List.count_eq_zero.mpr hfresh
    have h2 : (es.map Entity.id).count id = 0 := by
      apply List.count_eq_zero.mpr
      intro hmem
      obtain ⟨e, he, heq⟩ := List.mem_map.mp hmem
      exact hlater e he heq
    simp [h1, h2]
  show (((spawnAll (w.spawn (Entity.new id c)) es).entities.filterMap
      (entityTuple (spawnAll (w.spawn (Entity.new id c)) es).components fs)).filter
        fun t => t.1 == id) = [(id, vs)]
  rw [filter_filterMap_count _ _ _ _ _ _ hcomp hvs, hcount]
  rfl

/-- Witness for C2 at the spec's end-to-end scenario: entity 0 is spawned
first with position (3,4), the label and player entities are spawned after
it, and a position query over the full three-entity world still yields
entity 0 exactly once with (3,4). -/
theorem query_exactly_once_spawn_witness :
    (0 ∉ (World.new (C := Component)).entities) ∧
      (∀ e ∈ [Entity.new 1 (Component.new.with_name ⟨"Label"⟩),
          Entity.new 2 ((Component.new.with_position ⟨0, 0⟩).with_name ⟨"Ian"⟩)],
        e.id ≠ 0) ∧
      extractAll [positionField] (Component.new.with_position ⟨3, 4⟩)
        = some [Value.pos ⟨3, 4⟩] ∧
      ((queryFields
          (spawnAll
            ((World.new (C := Component)).spawn
              (Entity.new 0 (Component.new.with_position ⟨3, 4⟩)))
            [Entity.new 1 (Component.new.with_name ⟨"Label"⟩),
              Entity.new 2 ((Component.new.with_position ⟨0, 0⟩).with_name ⟨"Ian"⟩)])
          [positionField]).filter fun t => t.1 == 0)
        = [(0, [Value.pos ⟨3, 4⟩])] := by
  have hlater :
      ∀ e ∈ [Entity.new 1 (Component.new.with_name ⟨"Label"⟩),
          Entity.new 2 ((Component.new.with_position ⟨0, 0⟩).with_name ⟨"Ian"⟩)],
        Entity.id e ≠ 0 := by
    intro e he
    rcases List.mem_cons.mp he with rfl | he'
    · simp [Entity.new]
    · rcases List.mem_cons.mp he' with rfl | he''
      · simp [Entity.new]
      · simp at he''
  refine ⟨by simp [World.new], hlater, rfl, ?_⟩
  exact query_exactly_once_spawn World.new [positionField] 0
    (Component.new.with_position ⟨3, 4⟩) [Value.pos ⟨3, 4⟩]
    [Entity.new 1 (Component.new.with_name ⟨"Label"⟩),
      Entity.new 2 ((Component.new.with_position ⟨0, 0⟩).with_name ⟨"Ian"⟩)]
    (by simp [World.new]) hlater rfl

/-- C3: the identifiers in a query's output are exactly the world's entity
sequence filtered by field presence — same insertion order, no reordering and
no deduplication — whatever fields are requested; in particular the output's
identifier list is a sublist of the entity sequence. -/
theorem query_preserves_order {C V : Type} (w : World C)
    (fs : List (C → Option V)) :
    (queryFields w fs).map Prod.fst
        = w.entities.filter
            (fun id => ((mapGet w.components id).bind (extractAll fs)).isSome)
      ∧ List.Sublist ((queryFields w fs).map Prod.fst) w.entities := by
  refine ⟨queryFields_map_fst w fs, ?_⟩
  rw [queryFields_map_fst w fs]
  exact List.filter_sublist w.entities

/-- C4: spawn is total (it always returns the grown world) and appends: the
entity count grows by exactly one, and when the identifier is fresh — the
design's standing uniqueness assumption — the mapping size and the sequence
length stay equal. -/
theorem spawn_count {C : Type} (w : World C) (e : Entity C)
    (hfresh : mapGet w.components e.id = none)
    (hlen : w.components.length = w.entities.length) :
    (w.spawn e).entities.length = w.entities.length + 1 ∧
      (w.spawn e).components.length = (w.spawn e).entities.length := by
  constructor
  · show (w.entities ++ [e.id]).length = _
    simp
  · show (mapInsert w.components e.id e.component).length
        = (w.entities ++ [e.id]).length
    rw [length_mapInsert_of_not_mem _ _ _ hfresh, hlen]
    simp

/-- Witness for C4: spawn a fresh empty-bundle entity into the demo world. -/
theorem spawn_count_witness :
    mapGet demoWorld.components 5 = none ∧
      demoWorld.components.length = demoWorld.entities.length ∧
      ((demoWorld.spawn (Entity.new 5 Component.new)).entities.length
          = demoWorld.entities.length + 1 ∧
        (demoWorld.spawn (Entity.new 5 Component.new)).components.length
          = (demoWorld.spawn (Entity.new 5 Component.new)).entities.length) :=
  ⟨rfl, rfl, spawn_count demoWorld (Entity.new 5 Component.new) rfl rfl⟩

/-- C5: the sequence/mapping lockstep invariant holds for the empty world
produced by `World::new` and is preserved by every spawn. -/
theorem world_invariant {C : Type} :
    Inv (World.new (C := C)) ∧
      ∀ (w : World C) (e : Entity C), Inv w → Inv (w.spawn e) := by
  constructor
  · exact ⟨fun id => by simp [World.new, mapGet], by simp [World.new]⟩
  · rintro w e ⟨hiff, hnd⟩
    constructor
    · intro id
      show id ∈ w.entities ++ [e.id]
          ↔ (mapGet (mapInsert w.components e.id e.component) id).isSome
      rw [List.mem_append]
      by_cases hid : id = e.id
      · subst hid
        simp [mapGet_mapInsert_self]
      · rw [mapGet_mapInsert_ne _ _ _ _ hid]
        simp only [List.mem_singleton, hid, or_false]
        exact hiff id
    · show ((mapInsert w.components e.id e.component).map Prod.fst).Nodup
      by_cases hmem : e.id ∈ w.components.map Prod.fst
      · rw [keys_mapInsert_of_mem _ _ _ hmem]
        exact hnd
      · rw [keys_mapInsert_of_not_mem _ _ _ hmem]
        rw [List.nodup_append]
        refine ⟨hnd, List.nodup_singleton _, ?_⟩
        intro a ha hb
        rw [List.mem_singleton] at hb
        subst hb
        exact hmem ha

/-- Witness for C5: the invariant after spawning one entity into the empty
world, with the empty world's invariant discharged explicitly. -/
theorem world_invariant_witness :
    Inv ((World.new (C := Component)).spawn (Entity.new 0 Component.new)) :=
  (world_invariant (C := Component)).2 World.new (Entity.new 0 Component.new)
    ⟨fun id => by simp [World.new, mapGet], by simp [World.new]⟩

/-- C6: no runtime failure path — spawn always returns the appended world,
and query evaluation accounts for every live entity as either one yielded
tuple or one silent exclusion (missing fields are data, not faults). -/
theorem no_runtime_failure {C V : Type} (w : World C)
    (fs : List (C → Option V)) (e : Entity C) :
    (w.spawn e).entities = w.entities ++ [e.id] ∧
      (queryFields w fs).length
          + (w.entities.filter fun id =>
              !((mapGet w.components id).bind (extractAll fs)).isSome).length
        = w.entities.length := by
  refine ⟨rfl, ?_⟩
  have h : (queryFields w fs).length
      = (w.entities.filter fun id =>
          ((mapGet w.components id).bind (extractAll fs)).isSome).length := by
    rw [← queryFields_map_fst w fs, List.length_map]
  rw [h]
  exact (List.length_eq_length_filter_add
    (fun id => ((mapGet w.components id).bind (extractAll fs)).isSome)).symm

/-- C7: a query call leaves the world unchanged, so running the same query
again from the state the first call returns yields the identical sequence. -/
theorem query_idempotent_snapshot {C V : Type} (w : World C)
    (fs : List (C → Option V)) :
    (queryRun w fs).2 = w ∧
      (queryRun (queryRun w fs).2 fs).1 = (queryRun w fs).1 :=
  ⟨rfl, rfl⟩

/-- C8: each builder call sets exactly its own field and carries every other
field over unchanged; a second call for the same field keeps the second
value, with no error. -/
theorem with_field_frame (b : Component) (p p' : Position) (n n' : Name) :
    ((b.with_position p).position = some p ∧ (b.with_position p).name = b.name)
      ∧ ((b.with_name n).name = some n
          ∧ (b.with_name n).position = b.position)
      ∧ (b.with_position p).with_position p' = b.with_position p'
      ∧ (b.with_name n).with_name n' = b.with_name n' :=
  ⟨⟨rfl, rfl⟩, ⟨rfl, rfl⟩, rfl, rfl⟩

/-- C9: builder calls for distinct fields commute, and re-setting the same
field keeps only the last value. -/
theorem builder_commutes (p p' : Position) (n : Name) :
    ((Component.new.with_position p).with_name n
        = (Component.new.with_name n).with_position p)
      ∧ (Component.new.with_position p).with_position p'
        = Component.new.with_position p' :=
  ⟨rfl, rfl⟩

/-- C10: an identifier in the entity sequence whose mapping lookup fails is
silently skipped by query evaluation — the output is as if the identifier
were not in the sequence at all, with no failure. -/
theorem query_skips_unmapped {C V : Type} (ents1 ents2 : List Nat)
    (comps : List (Nat × C)) (id : Nat) (fs : List (C → Option V))
    (h : mapGet comps id = none) :
    queryFields ⟨ents1 ++ id :: ents2, comps⟩ fs
      = queryFields ⟨ents1 ++ ents2, comps⟩ fs := by
  show (ents1 ++ id :: ents2).filterMap (entityTuple comps fs)
      = (ents1 ++ ents2).filterMap (entityTuple comps fs)
  rw [List.filterMap_append, List.filterMap_append]
  congr 1
  exact List.filterMap_cons_none (by simp [entityTuple, h])

/-- Witness for C10: identifier 5 sits in the sequence but has no mapping
entry; the query output ignores it. -/
theorem query_skips_unmapped_witness :
    mapGet ([] : List (Nat × Component)) 5 = none ∧
      queryFields ⟨[1] ++ 5 :: [2], ([] : List (Nat × Component))⟩ [positionField]
        = queryFields ⟨[1] ++ [2], ([] : List (Nat × Component))⟩ [positionField] :=
  ⟨rfl, query_skips_unmapped [1] [2] [] 5 [positionField] rfl⟩

end Tecs
